import Mathlib

/-!
# Verification of the QFin 2025 grid-search backtester

Shallow embedding of the two backtester variants of the repository:

* `Try2` embeds `round 1/grid search/try2/src/Backtester.cpp` (`runBacktest`
  with the else-if decision chain and no fee accounting).
* `Fuzz` embeds the single-file fuzzer/backtester (`runBacktest` with
  independent decision checks, fee accounting, and a `continue` that skips
  a tick while the short rolling average is undefined).
* The parameter-grid generation embeds `fuzzIntParam` / `fuzzDoubleParam`
  and the combination loop of `round 1/grid search/try2/src/FuzzerMain.cpp`.

Modelling conventions: C++ `double` arithmetic is embedded as exact `ℚ`
arithmetic; a `double` that can be NaN (the rolling averages) is embedded as
`Option ℚ` with `none` for NaN.  Write-only logging vectors of the source
(`timestamp` values, `short_avg`/`long_avg` logs, `position_log`,
`trade_profit`, the `record_trade_section` helper, and all console output)
never influence the strategy state, the position, the cash, or the fees, and
are omitted; `timestamp.size()` (used by the source as the current tick
index) always equals `mid_price.size()` because both vectors are pushed
together once per tick, so the embedding reads the length of the mid-price
history wherever the source reads `timestamp.size()`.
-/

namespace PanicTrader

/-- Shared constants of `Backtester.cpp` (`HIGH_SPREAD_THRESHOLD = 1.3`,
`POSITION_SIZE = 100`, `FEES = 0.002`, `POSITION_LIMIT = 100`). -/
def HIGH_SPREAD_THRESHOLD : ℚ := 13/10

def POSITION_SIZE : ℤ := 100

def FEES : ℚ := 1/500

def POSITION_LIMIT : ℤ := 100

/-- A parameter set, as passed to either `runBacktest`:
`short_window : int`, `waiting_period : int`,
`hs_exit_change_threshold : double`, `ma_turn_threshold : double`. -/
structure Params where
  short_window : ℤ
  waiting_period : ℤ
  hs_exit_change_threshold : ℚ
  ma_turn_threshold : ℚ
deriving DecidableEq

/-- `mean_of_last_N` of `Backtester.cpp`: sums `arr[i]` for
`i = sz - N, …, sz - 1` (the last `N` elements of `arr`) and divides by `N`.
The source loop reads exactly the suffix of `arr` that starts at index
`sz - N`, i.e. `arr.drop (sz - N)`; callers guard `sz ≥ N`, so the loop
never reads below index 0. -/
def mean_of_last_N (arr : List ℚ) (N : ℤ) : ℚ :=
  ((arr.drop ((arr.length : ℤ) - N).toNat).sum) / (N : ℚ)

namespace Try2

/-- Strategy/ledger state of `try2` `runBacktest`, i.e. the mutable locals
of the loop in `Backtester.cpp`.  `mid_price` and `in_high_spread` are the
history vectors that the decision logic reads back (rolling averages, and
`in_high_spread.back()` for the previous tick's high-spread flag). -/
structure State where
  in_position : Bool
  position_is_long : Bool
  current_position_extreme : ℚ
  waiting_for_signal : Bool
  high_spread_exit_index : ℤ
  last_high_spread_exit_savg : ℚ
  pos : ℤ
  cash : ℚ
  mid_price : List ℚ
  in_high_spread : List Bool
deriving DecidableEq

/-- Initial state of a run (`Backtester.cpp` lines 57–67). -/
def initState : State :=
  { in_position := false
    position_is_long := false
    current_position_extreme := 0
    waiting_for_signal := false
    high_spread_exit_index := -1
    last_high_spread_exit_savg := 0
    pos := 0
    cash := 0
    mid_price := []
    in_high_spread := [] }

/-- The short rolling average of the current tick (`Backtester.cpp`
lines 112–115): NaN (`none`) unless the mid-price history already holds at
least `short_window` elements, else `mean_of_last_N`. -/
def shortAvg (short_window : ℤ) (hist : List ℚ) : Option ℚ :=
  if (hist.length : ℤ) ≥ short_window then some (mean_of_last_N hist short_window)
  else none

/-- Check 0 of the tick (`// 0) If in position => check if short_avg turned
from extreme`): only runs when the short average is defined and a position
is held; tracks the favorable extreme and emits a close order `-pos` when
the average has turned by at least `ma_turn_threshold`. -/
def turnExit (p : Params) (st : State) (s_avg : Option ℚ) : ℤ × State :=
  match s_avg with
  | none => (0, st)
  | some sa =>
    if st.in_position then
      if st.position_is_long then
        if sa > st.current_position_extreme then
          (0, { st with current_position_extreme := sa })
        else if st.current_position_extreme - sa ≥ p.ma_turn_threshold then
          (-st.pos, { st with in_position := false, position_is_long := false,
                              current_position_extreme := 0 })
        else (0, st)
      else
        if sa < st.current_position_extreme then
          (0, { st with current_position_extreme := sa })
        else if sa - st.current_position_extreme ≥ p.ma_turn_threshold then
          (-st.pos, { st with in_position := false, position_is_long := false,
                              current_position_extreme := 0 })
        else (0, st)
    else (0, st)

/-- The decision phase of one tick of `try2` `runBacktest`
(`Backtester.cpp` lines 103–232): check 0 (turn exit), then the
else-if chain 1) just-exited-high-spread, 2) entry after the waiting
period, 3) forced close while in high spread with a position.  Returns the
order quantity and the state with the strategy flags updated.
`st.in_high_spread.getLast?.getD false` is the source condition
`!timestamp.empty() && in_high_spread.back()` (an empty history yields
`false` either way), and `st.mid_price.length` is `timestamp.size()`. -/
def decideOrder (p : Params) (st : State) (b a : ℚ) : ℤ × State :=
  let m := (b + a) / 2
  let hs : Bool := a - b ≥ HIGH_SPREAD_THRESHOLD
  let s_avg := shortAvg p.short_window st.mid_price
  let r0 := turnExit p st s_avg
  let oq := r0.1
  let st1 := r0.2
  if (st1.in_high_spread.getLast?.getD false) = true ∧ hs = false then
    -- 1) Just exited HS
    let savg2 := match s_avg with
      | some sa => sa
      | none => m
    (oq, { st1 with high_spread_exit_index := (st1.mid_price.length : ℤ) - 1,
                    last_high_spread_exit_savg := savg2,
                    waiting_for_signal := true })
  else if st1.waiting_for_signal = true ∧
          (st1.mid_price.length : ℤ) - st1.high_spread_exit_index ≥ p.waiting_period ∧
          st1.pos = 0 ∧ hs = false then
    -- 2) waited WAITING_PERIOD => check threshold for new entry
    match s_avg with
    | some sa =>
      if |sa - st1.last_high_spread_exit_savg| ≥ p.hs_exit_change_threshold then
        if m > sa then
          (POSITION_SIZE, { st1 with in_position := true, position_is_long := true,
                                     current_position_extreme := sa,
                                     waiting_for_signal := false })
        else if m < sa then
          (-POSITION_SIZE, { st1 with in_position := true, position_is_long := false,
                                      current_position_extreme := sa,
                                      waiting_for_signal := false })
        else (oq, { st1 with waiting_for_signal := false })
      else (oq, st1)
    | none => (oq, st1)
  else if hs = true ∧ st1.pos ≠ 0 then
    -- 3) in HS & have a position => close now
    (-st1.pos, { st1 with in_position := false, position_is_long := false,
                          current_position_extreme := 0 })
  else (oq, st1)

/-- The fill phase of one tick (`Backtester.cpp` lines 234–248,
`// Apply position limits and update cash`): the order is zeroed when it
would push the position past `±POSITION_LIMIT`, a buy debits cash at the
ask plus fees, a sell credits cash at the bid minus fees, and the position
moves by the filled amount. -/
def applyFill (st : State) (oq : ℤ) (b a : ℚ) : State :=
  let actual1 := if oq > 0 ∧ st.pos + oq > POSITION_LIMIT then 0 else oq
  let actual := if actual1 < 0 ∧ st.pos + actual1 < -POSITION_LIMIT then 0 else actual1
  let cash2 :=
    if actual > 0 then st.cash - a * (actual : ℚ) * (1 + FEES)
    else if actual < 0 then st.cash + b * ((-actual : ℤ) : ℚ) * (1 - FEES)
    else st.cash
  { st with pos := st.pos + actual, cash := cash2 }

/-- One iteration of the main backtest loop of `try2` `runBacktest`:
decision phase, fill phase, then the history push (`update_history`)
recording the tick's mid-price and high-spread flag. -/
def tick (p : Params) (st : State) (b a : ℚ) : State :=
  let m := (b + a) / 2
  let hs : Bool := a - b ≥ HIGH_SPREAD_THRESHOLD
  let r := decideOrder p st b a
  let st2 := applyFill r.2 r.1 b a
  { st2 with mid_price := st2.mid_price ++ [m],
             in_high_spread := st2.in_high_spread ++ [hs] }

/-- The state after running the main loop over a price series of
`(bid, ask)` pairs. -/
def runState (p : Params) (data : List (ℚ × ℚ)) : State :=
  data.foldl (fun st ba => tick p st ba.1 ba.2) initState

/-- The final flatten of `try2` `runBacktest` (`Backtester.cpp`
lines 258–267): a residual long is sold at the final bid minus fees, a
residual short is bought back at the final ask plus fees. -/
def flattenCash (st : State) (final_bid final_ask : ℚ) : ℚ :=
  if st.pos > 0 then st.cash + final_bid * (st.pos : ℚ) * (1 - FEES)
  else if st.pos < 0 then st.cash - final_ask * ((-st.pos : ℤ) : ℚ) * (1 + FEES)
  else st.cash

/-- `try2` `runBacktest`: returns `0.0` for an empty series, else the final
cash after the loop and the final flatten against the last tick's
bid/ask. -/
def runBacktest (p : Params) (data : List (ℚ × ℚ)) : ℚ :=
  match data.getLast? with
  | none => 0
  | some ba => flattenCash (runState p data) ba.1 ba.2

end Try2

namespace Fuzz

/-- `computeRollingAverage` of the single-file fuzzer: sums
`midPrices[startIndex … endIndex]` (that is, `windowSize` consecutive
elements starting at `startIndex = endIndex - windowSize + 1`) and divides
by `windowSize`; NaN (`none`) when `startIndex < 0`.  (For
`windowSize ≤ 0` the source would compute `0.0 / windowSize`; the backtest
is only ever run with positive windows — the worker skips parameter sets
with a non-positive window or waiting period.) -/
def computeRollingAverage (midPrices : List ℚ) (endIndex windowSize : ℤ) : Option ℚ :=
  let startIndex := endIndex - windowSize + 1
  if startIndex < 0 then none
  else some ((((midPrices.drop startIndex.toNat).take windowSize.toNat).sum) / (windowSize : ℚ))

/-- Fixed fill constants of the fuzzer's `runBacktest`
(`fees_rate = 0.002`, `position_limit = 100`). -/
def fees_rate : ℚ := 1/500

def position_limit : ℤ := 100

/-- Mutable locals of the fuzzer's `runBacktest` loop.  `midPrices` is the
pre-allocated vector, written sequentially as `midPrices[i] = mid_price`,
so at the start of tick `i` it holds exactly the mids of ticks `0 … i-1`
and `i = midPrices.length`. -/
structure FState where
  in_position : Bool
  position_is_long : Bool
  waiting_for_signal : Bool
  high_spread_exit_index : ℤ
  last_high_spread_exit_short_avg : ℚ
  current_position_extreme : ℚ
  prev_in_high_spread : Bool
  currentPosition : ℤ
  cash : ℚ
  totalFees : ℚ
  midPrices : List ℚ
deriving DecidableEq

/-- Initial state of the fuzzer's `runBacktest`. -/
def initState : FState :=
  { in_position := false
    position_is_long := false
    waiting_for_signal := false
    high_spread_exit_index := -1
    last_high_spread_exit_short_avg := 0
    current_position_extreme := 0
    prev_in_high_spread := false
    currentPosition := 0
    cash := 0
    totalFees := 0
    midPrices := [] }

/-- The order-processing block of the fuzzer's `runBacktest`
(`if(order_quantity != 0) { … }`): a buy is zeroed if it would push the
position above `position_limit`, then (if still positive) debits cash by
`ask * qty * (1 + fees_rate)` and accrues `ask * qty * fees_rate` of fees;
symmetrically for a sell at the bid; finally
`currentPosition += order_quantity` with the possibly-zeroed quantity. -/
def applyFill (st : FState) (oq : ℤ) (b a : ℚ) : FState :=
  if oq ≠ 0 then
    if oq > 0 then
      let oq2 := if st.currentPosition + oq > position_limit then 0 else oq
      if oq2 > 0 then
        { st with cash := st.cash - a * (oq2 : ℚ) * (1 + fees_rate),
                  totalFees := st.totalFees + a * (oq2 : ℚ) * fees_rate,
                  currentPosition := st.currentPosition + oq2 }
      else { st with currentPosition := st.currentPosition + oq2 }
    else
      let oq2 := if st.currentPosition + oq < -position_limit then 0 else oq
      if oq2 < 0 then
        { st with cash := st.cash + b * ((-oq2 : ℤ) : ℚ) * (1 - fees_rate),
                  totalFees := st.totalFees + b * ((-oq2 : ℤ) : ℚ) * fees_rate,
                  currentPosition := st.currentPosition + oq2 }
      else { st with currentPosition := st.currentPosition + oq2 }
  else st

/-- Check 0 of the fuzzer tick (`// 0) If in a position => check if
short_avg turned from local extreme`). -/
def turnExit (p : Params) (st : FState) (sa : ℚ) : ℤ × FState :=
  if st.in_position then
    if st.position_is_long then
      if sa > st.current_position_extreme then
        (0, { st with current_position_extreme := sa })
      else if st.current_position_extreme - sa ≥ p.ma_turn_threshold then
        (-st.currentPosition, { st with in_position := false, position_is_long := false,
                                        current_position_extreme := 0 })
      else (0, st)
    else
      if sa < st.current_position_extreme then
        (0, { st with current_position_extreme := sa })
      else if sa - st.current_position_extreme ≥ p.ma_turn_threshold then
        (-st.currentPosition, { st with in_position := false, position_is_long := false,
                                        current_position_extreme := 0 })
      else (0, st)
  else (0, st)

/-- Check 1 of the fuzzer tick (`// 1) Just exited a high spread`) followed
by the unconditional `prev_in_high_spread = in_high_spread` update. -/
def hsExitDetect (st : FState) (i : ℤ) (sa : ℚ) (hs : Bool) : FState :=
  let st1a :=
    if st.prev_in_high_spread = true ∧ hs = false then
      { st with high_spread_exit_index := i,
                last_high_spread_exit_short_avg := sa,
                waiting_for_signal := true }
    else st
  { st1a with prev_in_high_spread := hs }

/-- Check 2 of the fuzzer tick (`// 2) waited WAITING_PERIOD => check
threshold`); `oq0` is the order quantity carried over from check 0. -/
def entryCheck (p : Params) (st : FState) (i : ℤ) (m sa : ℚ) (hs : Bool) (oq0 : ℤ) :
    ℤ × FState :=
  if st.waiting_for_signal then
    if i - st.high_spread_exit_index ≥ p.waiting_period ∧
       st.currentPosition = 0 ∧ hs = false then
      if |sa - st.last_high_spread_exit_short_avg| ≥ p.hs_exit_change_threshold then
        if m > sa then
          (POSITION_SIZE, { st with in_position := true, position_is_long := true,
                                    current_position_extreme := sa,
                                    waiting_for_signal := false })
        else if m < sa then
          (-POSITION_SIZE, { st with in_position := true, position_is_long := false,
                                     current_position_extreme := sa,
                                     waiting_for_signal := false })
        else (oq0, { st with waiting_for_signal := false })
      else (oq0, st)
    else (oq0, st)
  else (oq0, st)

/-- The decision checks of the fuzzer's `runBacktest` loop on a tick whose
short rolling average `sa` is defined (`i = st.midPrices.length` is the
current time index): check 0 (turn exit), check 1 (just exited high
spread) followed by the unconditional `prev_in_high_spread` update,
check 2 (entry after the waiting period), and check 3 (forced close while
in high spread with a position) — four *independent* `if`s, evaluated in
this order.  The `isnan` re-checks inside checks 1 and 2 of the source are
unreachable here (the average is already known to be defined, and
`last_high_spread_exit_short_avg` is initialised to `0.0`, never NaN). -/
def decideOrder (p : Params) (st : FState) (b a : ℚ) (sa : ℚ) : ℤ × FState :=
  let m := (b + a) / 2
  let i : ℤ := (st.midPrices.length : ℤ)
  let hs : Bool := a - b ≥ HIGH_SPREAD_THRESHOLD
  let r0 := turnExit p st sa
  let st1 := hsExitDetect r0.2 i sa hs
  let r2 := entryCheck p st1 i m sa hs r0.1
  -- 3) If in high spread + have position => immediate close
  if hs = true ∧ r2.2.currentPosition ≠ 0 then
    (-r2.2.currentPosition, { r2.2 with in_position := false, position_is_long := false,
                                        current_position_extreme := 0 })
  else r2

/-- One iteration of the fuzzer's `runBacktest` loop over tick `i`
(with `i = st.midPrices.length`): stores the mid-price, computes the short
rolling average, and on NaN executes `continue` (only the mid-price store
survives — in particular `prev_in_high_spread` is *not* updated on skipped
ticks); otherwise runs the decision checks and processes the order. -/
def tick (p : Params) (st : FState) (b a : ℚ) : FState :=
  let m := (b + a) / 2
  let i : ℤ := (st.midPrices.length : ℤ)
  let mids := st.midPrices ++ [m]
  match computeRollingAverage mids i p.short_window with
  | none => { st with midPrices := mids }
  | some sa =>
    let r := decideOrder p st b a sa
    applyFill { r.2 with midPrices := mids } r.1 b a

/-- The state after the fuzzer's `runBacktest` loop over the price
series. -/
def runState (p : Params) (data : List (ℚ × ℚ)) : FState :=
  data.foldl (fun st ba => tick p st ba.1 ba.2) initState

/-- The final close of the fuzzer's `runBacktest`: a residual long is sold
at `priceData.back().Bid` minus fees, a residual short is bought back at
`priceData.back().Ask` plus fees, fees accrue on the notional, and
`currentPosition` is explicitly set to `0`.  (`getD (0, 0)` stands for
`priceData.back()`; it is only read when the position is non-zero, which
requires at least one processed tick.) -/
def finalClose (st : FState) (data : List (ℚ × ℚ)) : FState :=
  if st.currentPosition > 0 then
    let finalBid := (data.getLast?.getD (0, 0)).1
    { st with cash := st.cash + finalBid * (st.currentPosition : ℚ) * (1 - fees_rate),
              totalFees := st.totalFees + finalBid * (st.currentPosition : ℚ) * fees_rate,
              currentPosition := 0 }
  else if st.currentPosition < 0 then
    let finalAsk := (data.getLast?.getD (0, 0)).2
    { st with cash := st.cash - finalAsk * ((-st.currentPosition : ℤ) : ℚ) * (1 + fees_rate),
              totalFees := st.totalFees + finalAsk * ((-st.currentPosition : ℤ) : ℚ) * fees_rate,
              currentPosition := 0 }
  else st

/-- The full state at the point where the fuzzer's `runBacktest` builds its
return value (after the loop and the final close). -/
def runFull (p : Params) (data : List (ℚ × ℚ)) : FState :=
  finalClose (runState p data) data

/-- The fuzzer's `BacktestResult { pnl, total_fees }`. -/
structure BacktestResult where
  pnl : ℚ
  total_fees : ℚ
deriving DecidableEq

/-- The fuzzer's `runBacktest`: final cash and accumulated fees. -/
def runBacktest (p : Params) (data : List (ℚ × ℚ)) : BacktestResult :=
  { pnl := (runFull p data).cash, total_fees := (runFull p data).totalFees }

end Fuzz

namespace Grid

/-- `std::round` on the exact value: round half away from zero. -/
def cppRound (x : ℚ) : ℤ := if x ≥ 0 then ⌊x + 1/2⌋ else ⌈x - 1/2⌉

/-- `fuzzIntParam` of `FuzzerMain.cpp`: for `i = -10 … 10`, scale the base
by `(100.0 + i) / 100.0`, round to the nearest integer, clamp below `1`,
then sort ascending.  (`std::sort` on integers produces the unique sorted
arrangement of the multiset, here given by insertion sort.) -/
def fuzzIntParam (baseVal : ℤ) : List ℤ :=
  let vals := (List.range 21).map (fun (k : ℕ) =>
    let i : ℤ := (k : ℤ) - 10
    let factor : ℚ := (100 + (i : ℚ)) / 100
    let dval : ℚ := (baseVal : ℚ) * factor
    let iv := cppRound dval
    if iv < 1 then 1 else iv)
  vals.insertionSort (· ≤ ·)

/-- `fuzzDoubleParam` of `FuzzerMain.cpp`: for `i = -10 … 10`, scale the
base by `(100.0 + i) / 100.0`, replace non-positive values by `1e-6`, then
sort ascending. -/
def fuzzDoubleParam (baseVal : ℚ) : List ℚ :=
  let vals := (List.range 21).map (fun (k : ℕ) =>
    let i : ℤ := (k : ℤ) - 10
    let factor : ℚ := (100 + (i : ℚ)) / 100
    let dv : ℚ := baseVal * factor
    if dv ≤ 0 then 1/1000000 else dv)
  vals.insertionSort (· ≤ ·)

/-- A `ParamResult` row of `FuzzerMain.cpp` (`pnl` initialised to `0.0`
when the combination is placed in the grid). -/
structure ParamResult where
  short_window : ℤ
  waiting_period : ℤ
  hs_exit_change_threshold : ℚ
  ma_turn_threshold : ℚ
  pnl : ℚ
deriving DecidableEq

/-- The combination-building loop of `main` in `FuzzerMain.cpp`: the four
nested `for` loops push one `ParamResult` per element of the Cartesian
product, in lexicographic order `sw`, `wp`, `hsx`, `mat`. -/
def buildCombos (sw_vals wp_vals : List ℤ) (hsx_vals mat_vals : List ℚ) :
    List ParamResult :=
  sw_vals.flatMap (fun sw =>
    wp_vals.flatMap (fun wp =>
      hsx_vals.flatMap (fun hsx =>
        mat_vals.map (fun mat =>
          { short_window := sw, waiting_period := wp,
            hs_exit_change_threshold := hsx, ma_turn_threshold := mat,
            pnl := 0 }))))

/-- The full grid of `main` for base values `baseSW`, `baseWP`, `baseHSX`,
`baseMAT`. -/
def mainCombos (baseSW baseWP : ℤ) (baseHSX baseMAT : ℚ) : List ParamResult :=
  buildCombos (fuzzIntParam baseSW) (fuzzIntParam baseWP)
    (fuzzDoubleParam baseHSX) (fuzzDoubleParam baseMAT)

end Grid

/-! ## Helper lemmas -/

/-- `turnExit` only touches the strategy flags: position, cash and the
history vectors are unchanged. -/
theorem Try2.turnExit_preserve (p : Params) (st : Try2.State) (s : Option ℚ) :
    (Try2.turnExit p st s).2.pos = st.pos ∧
    (Try2.turnExit p st s).2.cash = st.cash ∧
    (Try2.turnExit p st s).2.mid_price = st.mid_price ∧
    (Try2.turnExit p st s).2.in_high_spread = st.in_high_spread := by
  cases s with
  | none => exact ⟨rfl, rfl, rfl, rfl⟩
  | some sa =>
    simp only [Try2.turnExit]
    split_ifs <;> exact ⟨rfl, rfl, rfl, rfl⟩

/-- The decision phase of a `try2` tick only touches the strategy flags:
position, cash and the history vectors are unchanged. -/
theorem Try2.decideOrder_preserve (p : Params) (st : Try2.State) (b a : ℚ) :
    (Try2.decideOrder p st b a).2.pos = st.pos ∧
    (Try2.decideOrder p st b a).2.cash = st.cash ∧
    (Try2.decideOrder p st b a).2.mid_price = st.mid_price ∧
    (Try2.decideOrder p st b a).2.in_high_spread = st.in_high_spread := by
  obtain ⟨h1, h2, h3, h4⟩ := Try2.turnExit_preserve p st (Try2.shortAvg p.short_window st.mid_price)
  cases hsa : Try2.shortAvg p.short_window st.mid_price <;>
    rw [hsa] at h1 h2 h3 h4 <;>
    simp only [Try2.decideOrder, hsa] <;>
    split_ifs <;>
    simp_all

/-- The decision phase of a fuzzer tick only touches the strategy flags:
position, cash, accumulated fees and the mid-price history are
unchanged. -/
theorem Fuzz.turnExitF_preserve (p : Params) (st : Fuzz.FState) (sa : ℚ) :
    (Fuzz.turnExit p st sa).2.currentPosition = st.currentPosition ∧
    (Fuzz.turnExit p st sa).2.cash = st.cash ∧
    (Fuzz.turnExit p st sa).2.totalFees = st.totalFees ∧
    (Fuzz.turnExit p st sa).2.midPrices = st.midPrices := by
  simp only [Fuzz.turnExit]
  split_ifs <;> exact ⟨rfl, rfl, rfl, rfl⟩

theorem Fuzz.hsExitDetect_preserve (st : Fuzz.FState) (i : ℤ) (sa : ℚ) (hs : Bool) :
    (Fuzz.hsExitDetect st i sa hs).currentPosition = st.currentPosition ∧
    (Fuzz.hsExitDetect st i sa hs).cash = st.cash ∧
    (Fuzz.hsExitDetect st i sa hs).totalFees = st.totalFees ∧
    (Fuzz.hsExitDetect st i sa hs).midPrices = st.midPrices := by
  simp only [Fuzz.hsExitDetect]
  split_ifs <;> exact ⟨rfl, rfl, rfl, rfl⟩

theorem Fuzz.entryCheck_preserve (p : Params) (st : Fuzz.FState) (i : ℤ) (m sa : ℚ)
    (hs : Bool) (oq0 : ℤ) :
    (Fuzz.entryCheck p st i m sa hs oq0).2.currentPosition = st.currentPosition ∧
    (Fuzz.entryCheck p st i m sa hs oq0).2.cash = st.cash ∧
    (Fuzz.entryCheck p st i m sa hs oq0).2.totalFees = st.totalFees ∧
    (Fuzz.entryCheck p st i m sa hs oq0).2.midPrices = st.midPrices := by
  simp only [Fuzz.entryCheck]
  split_ifs <;> exact ⟨rfl, rfl, rfl, rfl⟩

theorem Fuzz.decideOrderF_preserve (p : Params) (st : Fuzz.FState) (b a sa : ℚ) :
    (Fuzz.decideOrder p st b a sa).2.currentPosition = st.currentPosition ∧
    (Fuzz.decideOrder p st b a sa).2.cash = st.cash ∧
    (Fuzz.decideOrder p st b a sa).2.totalFees = st.totalFees ∧
    (Fuzz.decideOrder p st b a sa).2.midPrices = st.midPrices := by
  obtain ⟨h01, h02, h03, h04⟩ := Fuzz.turnExitF_preserve p st sa
  obtain ⟨h11, h12, h13, h14⟩ := Fuzz.hsExitDetect_preserve (Fuzz.turnExit p st sa).2
    ((st.midPrices.length : ℤ)) sa (Decidable.decide (a - b ≥ HIGH_SPREAD_THRESHOLD))
  obtain ⟨h21, h22, h23, h24⟩ := Fuzz.entryCheck_preserve p
    (Fuzz.hsExitDetect (Fuzz.turnExit p st sa).2 ((st.midPrices.length : ℤ)) sa
      (Decidable.decide (a - b ≥ HIGH_SPREAD_THRESHOLD)))
    ((st.midPrices.length : ℤ)) ((b + a) / 2) sa
    (Decidable.decide (a - b ≥ HIGH_SPREAD_THRESHOLD)) (Fuzz.turnExit p st sa).1
  simp only [Fuzz.decideOrder]
  split_ifs <;> simp_all

/-- The `try2` fill keeps `|pos| ≤ POSITION_LIMIT`. -/
theorem Try2.applyFill_pos_bound (st : Try2.State) (oq : ℤ) (b a : ℚ)
    (h : |st.pos| ≤ POSITION_LIMIT) :
    |(Try2.applyFill st oq b a).pos| ≤ POSITION_LIMIT := by
  simp only [Try2.applyFill, POSITION_LIMIT] at *
  rw [abs_le] at h ⊢
  split_ifs <;> omega

/-- A `try2` tick keeps `|pos| ≤ POSITION_LIMIT`. -/
theorem Try2.tick_pos_bound (p : Params) (st : Try2.State) (b a : ℚ)
    (h : |st.pos| ≤ POSITION_LIMIT) :
    |(Try2.tick p st b a).pos| ≤ POSITION_LIMIT := by
  have h2 := (Try2.decideOrder_preserve p st b a).1
  have h3 := Try2.applyFill_pos_bound (Try2.decideOrder p st b a).2
    (Try2.decideOrder p st b a).1 b a (by rw [h2]; exact h)
  simpa [Try2.tick] using h3

/-- The fuzzer fill keeps `|currentPosition| ≤ position_limit`. -/
theorem Fuzz.applyFillF_pos_bound (st : Fuzz.FState) (oq : ℤ) (b a : ℚ)
    (h : |st.currentPosition| ≤ Fuzz.position_limit) :
    |(Fuzz.applyFill st oq b a).currentPosition| ≤ Fuzz.position_limit := by
  simp only [Fuzz.applyFill, Fuzz.position_limit] at *
  rw [abs_le] at h ⊢
  split_ifs <;> (try dsimp only) <;> omega

/-- A fuzzer tick keeps `|currentPosition| ≤ position_limit`. -/
theorem Fuzz.tickF_pos_bound (p : Params) (st : Fuzz.FState) (b a : ℚ)
    (h : |st.currentPosition| ≤ Fuzz.position_limit) :
    |(Fuzz.tick p st b a).currentPosition| ≤ Fuzz.position_limit := by
  cases hsa : Fuzz.computeRollingAverage (st.midPrices ++ [(b + a) / 2])
      ((st.midPrices.length : ℤ)) p.short_window with
  | none => simp only [Fuzz.tick, hsa]; simpa using h
  | some sa =>
    have h2 := (Fuzz.decideOrderF_preserve p st b a sa).1
    have h3 := Fuzz.applyFillF_pos_bound
      { (Fuzz.decideOrder p st b a sa).2 with midPrices := st.midPrices ++ [(b + a) / 2] }
      (Fuzz.decideOrder p st b a sa).1 b a (by simpa [h2] using h)
    simp only [Fuzz.tick, hsa]
    simpa using h3

/-- The `try2` loop keeps `|pos| ≤ POSITION_LIMIT` from any in-bounds
state. -/
theorem Try2.foldl_pos_bound (p : Params) (data : List (ℚ × ℚ)) :
    ∀ st : Try2.State, |st.pos| ≤ POSITION_LIMIT →
      |(data.foldl (fun s ba => Try2.tick p s ba.1 ba.2) st).pos| ≤ POSITION_LIMIT := by
  induction data with
  | nil => intro st h; simpa using h
  | cons hd tl ih =>
    intro st h
    exact ih _ (Try2.tick_pos_bound p st hd.1 hd.2 h)

/-- The fuzzer loop keeps `|currentPosition| ≤ position_limit` from any
in-bounds state. -/
theorem Fuzz.foldlF_pos_bound (p : Params) (data : List (ℚ × ℚ)) :
    ∀ st : Fuzz.FState, |st.currentPosition| ≤ Fuzz.position_limit →
      |(data.foldl (fun s ba => Fuzz.tick p s ba.1 ba.2) st).currentPosition| ≤
        Fuzz.position_limit := by
  induction data with
  | nil => intro st h; simpa using h
  | cons hd tl ih =>
    intro st h
    exact ih _ (Fuzz.tickF_pos_bound p st hd.1 hd.2 h)

/-- The fuzzer's final close always leaves `currentPosition = 0` (the two
closing branches set it to `0` explicitly, and the remaining branch is
only reached when it is already `0`). -/
theorem Fuzz.finalClose_pos (st : Fuzz.FState) (data : List (ℚ × ℚ)) :
    (Fuzz.finalClose st data).currentPosition = 0 := by
  simp only [Fuzz.finalClose]
  split_ifs <;> (try simp) <;> omega

/-! ## Claims -/

/-- C9: For the empty price series (zero ticks), `runBacktest` returns a
zero-PnL result (PnL = 0, no trades, no fees) rather than failing or
propagating an error — in the `try2` variant the early `nrows == 0`
return yields cash `0`, and in the fuzzer variant the loop and the final
close are skipped, leaving the initial state (position 0, cash 0,
fees 0). -/
theorem c9_empty_series_zero_pnl (p : Params) :
    Try2.runBacktest p [] = 0 ∧
    Fuzz.runBacktest p [] = { pnl := 0, total_fees := 0 } ∧
    Fuzz.runFull p [] = Fuzz.initState := by
  exact ⟨rfl, rfl, rfl⟩

/-- C1: On every tick, the forced close on a high-spread tick acts as the
last check and is independent of the others: whenever the tick's spread is
at least `1.3` (= `HIGH_SPREAD_THRESHOLD`) and the current position is
non-zero, the order emitted by the decision phase is exactly the negation
of the position — overwriting any quantity set by the turn-exit,
high-spread-exit-detection or entry checks — and the machine leaves
`in_position` (transitions to FLAT).  In the `try2` variant this holds for
every state (the close also fills fully, so the tick ends flat); in the
fuzzer variant it holds on every tick whose short rolling average is
defined (ticks with an undefined average are skipped whole by the
`continue`, but they can carry no position). -/
theorem c1_forced_close_overrides_all_checks :
    ∀ (p : Params) (b a : ℚ), HIGH_SPREAD_THRESHOLD ≤ a - b →
      (∀ st : Try2.State, st.pos ≠ 0 →
        (Try2.decideOrder p st b a).1 = -st.pos ∧
        (Try2.decideOrder p st b a).2.in_position = false ∧
        (Try2.tick p st b a).pos = 0) ∧
      (∀ (st : Fuzz.FState) (sa : ℚ), st.currentPosition ≠ 0 →
        (Fuzz.decideOrder p st b a sa).1 = -st.currentPosition ∧
        (Fuzz.decideOrder p st b a sa).2.in_position = false) := by
  intro p b a hspr
  have hbool : Decidable.decide (a - b ≥ HIGH_SPREAD_THRESHOLD) = true :=
    decide_eq_true hspr
  constructor
  · intro st hpos
    obtain ⟨ht, -, -, -⟩ :=
      Try2.turnExit_preserve p st (Try2.shortAvg p.short_window st.mid_price)
    have hmain : (Try2.decideOrder p st b a).1 = -st.pos ∧
        (Try2.decideOrder p st b a).2.in_position = false := by
      simp only [Try2.decideOrder, hbool]
      simp [ht, hpos]
    refine ⟨hmain.1, hmain.2, ?_⟩
    obtain ⟨hp2, -, -, -⟩ := Try2.decideOrder_preserve p st b a
    simp only [Try2.tick, Try2.applyFill, hmain.1, hp2, POSITION_LIMIT]
    split_ifs <;> simp <;> omega
  · intro st sa hpos
    obtain ⟨h01, -, -, -⟩ := Fuzz.turnExitF_preserve p st sa
    obtain ⟨h11, -, -, -⟩ := Fuzz.hsExitDetect_preserve (Fuzz.turnExit p st sa).2
      ((st.midPrices.length : ℤ)) sa (Decidable.decide (a - b ≥ HIGH_SPREAD_THRESHOLD))
    obtain ⟨h21, -, -, -⟩ := Fuzz.entryCheck_preserve p
      (Fuzz.hsExitDetect (Fuzz.turnExit p st sa).2 ((st.midPrices.length : ℤ)) sa
        (Decidable.decide (a - b ≥ HIGH_SPREAD_THRESHOLD)))
      ((st.midPrices.length : ℤ)) ((b + a) / 2) sa
      (Decidable.decide (a - b ≥ HIGH_SPREAD_THRESHOLD)) (Fuzz.turnExit p st sa).1
    simp only [Fuzz.decideOrder, hbool]
    simp_all

/-- C1 witness: a concrete high-spread tick (`bid = 1`, `ask = 3`) with a
held long of 5 in both variants emits the close order `-5` and clears
`in_position`. -/
theorem c1_witness :
    HIGH_SPREAD_THRESHOLD ≤ (3 : ℚ) - 1 ∧
    (let p : Params := ⟨2, 2, 1/10, 1/10⟩
     let st : Try2.State := { Try2.initState with pos := 5, in_position := true,
                                                  position_is_long := true }
     let fst : Fuzz.FState := { Fuzz.initState with currentPosition := 5,
                                                    in_position := true,
                                                    position_is_long := true }
     (Try2.decideOrder p st 1 3).1 = -5 ∧
     (Try2.decideOrder p st 1 3).2.in_position = false ∧
     (Try2.tick p st 1 3).pos = 0 ∧
     (Fuzz.decideOrder p fst 1 3 (2 : ℚ)).1 = -5 ∧
     (Fuzz.decideOrder p fst 1 3 (2 : ℚ)).2.in_position = false) := by
  refine ⟨by norm_num [HIGH_SPREAD_THRESHOLD], ?_⟩
  have h := c1_forced_close_overrides_all_checks ⟨2, 2, 1/10, 1/10⟩ 1 3
    (by norm_num [HIGH_SPREAD_THRESHOLD])
  obtain ⟨h1, h2⟩ := h
  have ha := h1 { Try2.initState with pos := 5, in_position := true,
                                      position_is_long := true } (by decide)
  have hb := h2 { Fuzz.initState with currentPosition := 5, in_position := true,
                                      position_is_long := true } (2 : ℚ) (by decide)
  exact ⟨ha.1, ha.2.1, ha.2.2, hb.1, hb.2⟩

/-- C3: For every price series, parameter set and tick index, the position
held after processing any prefix of the run satisfies
`|position| ≤ 100 = POSITION_LIMIT`, in both variants; the fuzzer's state
after the final close also satisfies the bound. -/
theorem c3_position_bound (p : Params) (data : List (ℚ × ℚ)) (n : ℕ) :
    |(Try2.runState p (data.take n)).pos| ≤ POSITION_LIMIT ∧
    |(Fuzz.runState p (data.take n)).currentPosition| ≤ Fuzz.position_limit ∧
    |(Fuzz.runFull p data).currentPosition| ≤ Fuzz.position_limit := by
  refine ⟨Try2.foldl_pos_bound p (data.take n) Try2.initState (by decide),
    Fuzz.foldlF_pos_bound p (data.take n) Fuzz.initState (by decide), ?_⟩
  rw [Fuzz.runFull, Fuzz.finalClose_pos]
  simp [Fuzz.position_limit]

/-- C4: An order that would push `|position + order|` beyond the limit of
100 is entirely discarded, never partially filled: in both variants that
tick's fill leaves the position, the cash (and, in the fuzzer variant, the
accumulated fees) unchanged. -/
theorem c4_order_rejection_total :
    ∀ (oq : ℤ) (b a : ℚ),
      (∀ st : Try2.State, |st.pos| ≤ POSITION_LIMIT → POSITION_LIMIT < |st.pos + oq| →
        (Try2.applyFill st oq b a).pos = st.pos ∧
        (Try2.applyFill st oq b a).cash = st.cash) ∧
      (∀ st : Fuzz.FState, |st.currentPosition| ≤ Fuzz.position_limit →
          Fuzz.position_limit < |st.currentPosition + oq| →
        (Fuzz.applyFill st oq b a).currentPosition = st.currentPosition ∧
        (Fuzz.applyFill st oq b a).cash = st.cash ∧
        (Fuzz.applyFill st oq b a).totalFees = st.totalFees) := by
  intro oq b a
  constructor
  · intro st h1 h2
    rw [abs_le] at h1
    rw [lt_abs] at h2
    simp only [Try2.applyFill, POSITION_LIMIT] at *
    split_ifs <;> (try dsimp only) <;>
      exact ⟨by omega, by first | rfl | (exfalso; omega)⟩
  · intro st h1 h2
    rw [abs_le] at h1
    rw [lt_abs] at h2
    simp only [Fuzz.applyFill, Fuzz.position_limit] at *
    split_ifs <;> (try dsimp only) <;>
      exact ⟨by omega, by first | rfl | (exfalso; omega),
             by first | rfl | (exfalso; omega)⟩

/-- C4 witness: from a full long position of 100, a further buy of 1 (which
would reach 101) is discarded whole in both variants, leaving position,
cash and fees untouched. -/
theorem c4_witness :
    (|(100 : ℤ)| ≤ POSITION_LIMIT ∧ POSITION_LIMIT < |(100 : ℤ) + 1|) ∧
    (let st : Try2.State := { Try2.initState with pos := 100 }
     let fst : Fuzz.FState := { Fuzz.initState with currentPosition := 100 }
     (Try2.applyFill st 1 2 3).pos = st.pos ∧
     (Try2.applyFill st 1 2 3).cash = st.cash ∧
     (Fuzz.applyFill fst 1 2 3).currentPosition = fst.currentPosition ∧
     (Fuzz.applyFill fst 1 2 3).cash = fst.cash ∧
     (Fuzz.applyFill fst 1 2 3).totalFees = fst.totalFees) := by
  refine ⟨⟨by decide, by decide⟩, ?_⟩
  obtain ⟨h1, h2⟩ := c4_order_rejection_total 1 2 3
  have ha := h1 { Try2.initState with pos := 100 } (by decide) (by decide)
  have hb := h2 { Fuzz.initState with currentPosition := 100 } (by decide) (by decide)
  exact ⟨ha.1, ha.2, hb.1, hb.2.1, hb.2.2⟩

/-- C2: When `runBacktest` returns, the position is exactly 0 — the
fuzzer's final close zeroes any residual position, selling a long at the
final tick's bid (minus fees) and buying back a short at the final tick's
ask (plus fees); the `try2` variant applies the same flatten formula to
its final cash. -/
theorem c2_terminal_flatness :
    ∀ (p : Params) (data : List (ℚ × ℚ)),
      (Fuzz.runFull p data).currentPosition = 0 ∧
      (∀ fb fa, data.getLast? = some (fb, fa) →
        (Fuzz.runFull p data).cash =
          (if (Fuzz.runState p data).currentPosition > 0 then
            (Fuzz.runState p data).cash +
              fb * ((Fuzz.runState p data).currentPosition : ℚ) * (1 - Fuzz.fees_rate)
          else if (Fuzz.runState p data).currentPosition < 0 then
            (Fuzz.runState p data).cash -
              fa * (((-(Fuzz.runState p data).currentPosition) : ℤ) : ℚ) *
                (1 + Fuzz.fees_rate)
          else (Fuzz.runState p data).cash) ∧
        Try2.runBacktest p data = Try2.flattenCash (Try2.runState p data) fb fa) := by
  intro p data
  refine ⟨Fuzz.finalClose_pos _ _, ?_⟩
  intro fb fa h
  constructor
  · simp only [Fuzz.runFull, Fuzz.finalClose, h]
    split_ifs <;> dsimp only <;> rfl
  · simp only [Try2.runBacktest, h]

/-- C2 witness: on the one-tick series `[(2, 3)]` the run ends with
position 0 and the stated flatten equations hold for `fb = 2`,
`fa = 3`. -/
theorem c2_witness :
    (Fuzz.runFull ⟨1, 1, 0, 1⟩ [((2 : ℚ), (3 : ℚ))]).currentPosition = 0 ∧
    ([((2 : ℚ), (3 : ℚ))].getLast? = some (2, 3)) ∧
    Try2.runBacktest ⟨1, 1, 0, 1⟩ [((2 : ℚ), (3 : ℚ))] =
      Try2.flattenCash (Try2.runState ⟨1, 1, 0, 1⟩ [((2 : ℚ), (3 : ℚ))]) 2 3 := by
  obtain ⟨h1, h2⟩ := c2_terminal_flatness ⟨1, 1, 0, 1⟩ [((2 : ℚ), (3 : ℚ))]
  exact ⟨h1, rfl, (h2 2 3 rfl).2⟩

/-- Auxiliary: the length of a `flatMap` whose blocks all have the same
length. -/
theorem length_flatMap_const {α β : Type} (l : List α) (f : α → List β) (n : ℕ)
    (h : ∀ x ∈ l, (f x).length = n) : (l.flatMap f).length = l.length * n := by
  induction l with
  | nil => simp
  | cons hd tl ih =>
    simp only [List.flatMap_cons, List.length_append, List.length_cons]
    rw [h hd (List.mem_cons_self hd tl), ih (fun x hx => h x (List.mem_cons_of_mem hd hx))]
    ring

/-- Each fuzzed integer dimension has exactly 21 candidate values. -/
theorem Grid.length_fuzzIntParam (b : ℤ) : (Grid.fuzzIntParam b).length = 21 := by
  unfold Grid.fuzzIntParam
  rw [List.length_insertionSort, List.length_map, List.length_range]

/-- Each fuzzed double dimension has exactly 21 candidate values. -/
theorem Grid.length_fuzzDoubleParam (b : ℚ) : (Grid.fuzzDoubleParam b).length = 21 := by
  unfold Grid.fuzzDoubleParam
  rw [List.length_insertionSort, List.length_map, List.length_range]

/-- The combination loop produces the full Cartesian product: one row per
4-tuple of per-dimension values. -/
theorem Grid.length_buildCombos (sw wp : List ℤ) (hx mt : List ℚ) :
    (Grid.buildCombos sw wp hx mt).length =
      sw.length * (wp.length * (hx.length * mt.length)) := by
  unfold Grid.buildCombos
  apply length_flatMap_const
  intro s _
  apply length_flatMap_const
  intro w _
  apply length_flatMap_const
  intro x _
  simp

/-- C8: With the hardcoded ±10% range in 1% steps, each of the four
parameter dimensions gets exactly `⌊2·10/1⌋ + 1 = 21` candidate values,
and the grid holds exactly the product of the four per-dimension counts,
`21⁴ = 194481` combinations — for every choice of base values. -/
theorem c8_grid_cardinality (baseSW baseWP : ℤ) (baseHSX baseMAT : ℚ) :
    (Grid.fuzzIntParam baseSW).length = 21 ∧
    (Grid.fuzzIntParam baseWP).length = 21 ∧
    (Grid.fuzzDoubleParam baseHSX).length = 21 ∧
    (Grid.fuzzDoubleParam baseMAT).length = 21 ∧
    (Grid.mainCombos baseSW baseWP baseHSX baseMAT).length =
      (Grid.fuzzIntParam baseSW).length * (Grid.fuzzIntParam baseWP).length *
        (Grid.fuzzDoubleParam baseHSX).length * (Grid.fuzzDoubleParam baseMAT).length ∧
    (Grid.mainCombos baseSW baseWP baseHSX baseMAT).length = 194481 := by
  have h1 := Grid.length_fuzzIntParam baseSW
  have h2 := Grid.length_fuzzIntParam baseWP
  have h3 := Grid.length_fuzzDoubleParam baseHSX
  have h4 := Grid.length_fuzzDoubleParam baseMAT
  have h5 := Grid.length_buildCombos (Grid.fuzzIntParam baseSW) (Grid.fuzzIntParam baseWP)
    (Grid.fuzzDoubleParam baseHSX) (Grid.fuzzDoubleParam baseMAT)
  refine ⟨h1, h2, h3, h4, ?_, ?_⟩ <;>
    · rw [Grid.mainCombos, h5, h1, h2, h3, h4]

/-- C6: The rolling-mean query returns NaN (`none`) exactly when the
history holds fewer than `w` elements, and otherwise the arithmetic mean
(sum divided by `w`) of exactly the last `w` elements — for the `try2`
query (`mean_of_last_N` under its size guard) and for the fuzzer's
`computeRollingAverage` evaluated at the last index of the history. -/
theorem c6_rolling_mean_contract :
    ∀ (hist : List ℚ) (w : ℤ), 0 < w →
      (Try2.shortAvg w hist = none ↔ (hist.length : ℤ) < w) ∧
      (∀ pre suf : List ℚ, hist = pre ++ suf → (suf.length : ℤ) = w →
        Try2.shortAvg w hist = some (suf.sum / (w : ℚ))) ∧
      (Fuzz.computeRollingAverage hist ((hist.length : ℤ) - 1) w = none ↔
        (hist.length : ℤ) < w) ∧
      (∀ pre suf : List ℚ, hist = pre ++ suf → (suf.length : ℤ) = w →
        Fuzz.computeRollingAverage hist ((hist.length : ℤ) - 1) w =
          some (suf.sum / (w : ℚ))) := by
  intro hist w hw
  refine ⟨?_, ?_, ?_, ?_⟩
  · simp only [Try2.shortAvg]
    split_ifs with h <;> simp <;> omega
  · intro pre suf heq hlen
    subst heq
    have hge : ((pre ++ suf).length : ℤ) ≥ w := by
      simp only [List.length_append]
      push_cast
      omega
    simp only [Try2.shortAvg, if_pos hge, mean_of_last_N]
    have hidx : (((pre ++ suf).length : ℤ) - w).toNat = pre.length := by
      simp only [List.length_append]
      push_cast
      omega
    rw [hidx, List.drop_left]
  · simp only [Fuzz.computeRollingAverage]
    split_ifs with h <;> simp <;> omega
  · intro pre suf heq hlen
    subst heq
    have hnneg : ¬ ((pre ++ suf).length : ℤ) - 1 - w + 1 < 0 := by
      simp only [List.length_append]
      push_cast
      omega
    simp only [Fuzz.computeRollingAverage, if_neg hnneg]
    have hidx : (((pre ++ suf).length : ℤ) - 1 - w + 1).toNat = pre.length := by
      simp only [List.length_append]
      push_cast
      omega
    rw [hidx, List.drop_left]
    have htake : suf.take w.toNat = suf := by
      apply List.take_of_length_le
      omega
    rw [htake]

/-- C6 witness: on the history `[1, 2, 3, 4]` with window 2, both queries
return the mean `7/2` of the last two elements. -/
theorem c6_witness :
    (0 : ℤ) < 2 ∧
    Try2.shortAvg 2 [1, 2, 3, 4] = some (7/2) ∧
    Fuzz.computeRollingAverage [1, 2, 3, 4] 3 2 = some (7/2) := by
  have h := c6_rolling_mean_contract [1, 2, 3, 4] 2 (by decide)
  refine ⟨by decide, ?_, ?_⟩
  · have h2 := h.2.1 [1, 2] [3, 4] rfl (by decide)
    norm_num at h2
    exact h2
  · have h3 := h.2.2.2 [1, 2] [3, 4] rfl (by decide)
    norm_num at h3
    exact h3

/-- A `try2` tick appends exactly the tick's mid-price to the mid-price
history. -/
theorem Try2.tick_mid (p : Params) (st : Try2.State) (b a : ℚ) :
    (Try2.tick p st b a).mid_price = st.mid_price ++ [(b + a) / 2] := by
  have h := (Try2.decideOrder_preserve p st b a).2.2.1
  simp [Try2.tick, Try2.applyFill, h]

/-- Along the `try2` loop, the mid-price history is exactly the mid-price
of every processed tick, in order. -/
theorem Try2.foldl_mid (p : Params) (data : List (ℚ × ℚ)) :
    ∀ st : Try2.State,
      (data.foldl (fun s ba => Try2.tick p s ba.1 ba.2) st).mid_price =
        st.mid_price ++ data.map (fun ba => (ba.1 + ba.2) / 2) := by
  induction data with
  | nil => intro st; simp
  | cons hd tl ih =>
    intro st
    rw [List.foldl_cons, ih, Try2.tick_mid, List.map_cons, List.append_assoc,
      List.singleton_append]

/-- C10: In the `try2` `runBacktest`, the short rolling average used for
tick `i`'s trading decisions is computed from a history holding exactly
the mid-prices of ticks `0 … i−1` (the current tick's mid is appended only
after the decision checks and the fill); hence it is NaN when `i < w`, and
otherwise the arithmetic mean of the mid-prices of ticks `i−w … i−1` —
never including tick `i`'s own mid-price. -/
theorem c10_short_avg_excludes_current_tick (p : Params) (data : List (ℚ × ℚ)) (i : ℕ)
    (hw : 0 < p.short_window) (hi : i ≤ data.length) :
    (Try2.runState p (data.take i)).mid_price =
      (data.map (fun ba => (ba.1 + ba.2) / 2)).take i ∧
    ((i : ℤ) < p.short_window →
      Try2.shortAvg p.short_window (Try2.runState p (data.take i)).mid_price = none) ∧
    (p.short_window ≤ (i : ℤ) →
      Try2.shortAvg p.short_window (Try2.runState p (data.take i)).mid_price =
        some ((((data.map (fun ba => (ba.1 + ba.2) / 2)).take i).drop
            (i - p.short_window.toNat)).sum / (p.short_window : ℚ))) := by
  have hmid : (Try2.runState p (data.take i)).mid_price =
      (data.map (fun ba => (ba.1 + ba.2) / 2)).take i := by
    rw [Try2.runState, Try2.foldl_mid, List.map_take]
    simp [Try2.initState]
  have hlen : ((data.map (fun ba => (ba.1 + ba.2) / 2)).take i).length = i := by
    rw [List.length_take, List.length_map]
    omega
  refine ⟨hmid, ?_, ?_⟩
  · intro hlt
    rw [hmid]
    simp only [Try2.shortAvg]
    rw [if_neg]
    rw [hlen]
    omega
  · intro hge
    rw [hmid]
    simp only [Try2.shortAvg]
    rw [if_pos (by rw [hlen]; omega)]
    simp only [mean_of_last_N, hlen]
    have : (((i : ℕ) : ℤ) - p.short_window).toNat = i - p.short_window.toNat := by
      omega
    rw [this]

/-- C10 witness: with window 2, tick 2 of a three-tick series sees the
average of the first two mids only (`(1 + 2)/2 = 3/2`), and tick 1 sees
none. -/
theorem c10_witness :
    (0 : ℤ) < 2 ∧ (2 : ℕ) ≤ 3 ∧ (1 : ℕ) ≤ 3 ∧
    (let p : Params := ⟨2, 1, 0, 1⟩
     let data : List (ℚ × ℚ) := [(1, 1), (2, 2), (3, 3)]
     Try2.shortAvg 2 (Try2.runState p (data.take 1)).mid_price = none ∧
     Try2.shortAvg 2 (Try2.runState p (data.take 2)).mid_price = some (3/2)) := by
  refine ⟨by decide, by decide, by decide, ?_, ?_⟩
  · exact (c10_short_avg_excludes_current_tick ⟨2, 1, 0, 1⟩ [(1, 1), (2, 2), (3, 3)] 1
      (by decide) (by decide)).2.1 (by decide)
  · have h := (c10_short_avg_excludes_current_tick ⟨2, 1, 0, 1⟩ [(1, 1), (2, 2), (3, 3)] 2
      (by decide) (by decide)).2.2 (by decide)
    norm_num at h
    exact h

/-- The fuzzer fill in terms of the filled quantity `q` (the clamped order):
the position moves by `q`, fees grow by the fee on the traded notional, and
cash moves by the fee-inclusive notional. -/
theorem Fuzz.applyFill_delta (st : Fuzz.FState) (oq : ℤ) (b a : ℚ) :
    ∃ q : ℤ,
      (Fuzz.applyFill st oq b a).currentPosition = st.currentPosition + q ∧
      (Fuzz.applyFill st oq b a).totalFees =
        st.totalFees + (if 0 < q then a * (q : ℚ) * Fuzz.fees_rate
          else if q < 0 then b * ((-q : ℤ) : ℚ) * Fuzz.fees_rate else 0) ∧
      (Fuzz.applyFill st oq b a).cash =
        st.cash + (if 0 < q then -(a * (q : ℚ) * (1 + Fuzz.fees_rate))
          else if q < 0 then b * ((-q : ℤ) : ℚ) * (1 - Fuzz.fees_rate) else 0) := by
  by_cases h1 : oq = 0
  · refine ⟨0, ?_, ?_, ?_⟩ <;> simp [Fuzz.applyFill, h1]
  · by_cases h2 : oq > 0
    · by_cases h3 : st.currentPosition + oq > Fuzz.position_limit
      · refine ⟨0, ?_, ?_, ?_⟩ <;> simp [Fuzz.applyFill, h1, h2, h3]
      · refine ⟨oq, ?_, ?_, ?_⟩ <;> simp [Fuzz.applyFill, h1, h2, h3] <;> ring
    · have h2' : oq < 0 := by omega
      by_cases h3 : st.currentPosition + oq < -Fuzz.position_limit
      · refine ⟨0, ?_, ?_, ?_⟩ <;> simp [Fuzz.applyFill, h1, h2, h3]
      · refine ⟨oq, ?_, ?_, ?_⟩ <;>
          simp [Fuzz.applyFill, h1, h2, h3, h2', not_lt.mpr (le_of_lt h2')] <;> ring

/-- Per-tick fee behaviour of the fuzzer: with non-negative prices the
accumulated fees never decrease, and with positive prices they strictly
increase exactly when the tick fills a non-zero order (i.e. exactly when
the position changes, since a fill moves the position by the filled
quantity). -/
theorem Fuzz.tick_fees (p : Params) (st : Fuzz.FState) (b a : ℚ) :
    (0 ≤ b → 0 ≤ a → st.totalFees ≤ (Fuzz.tick p st b a).totalFees) ∧
    (0 < b → 0 < a →
      (st.totalFees < (Fuzz.tick p st b a).totalFees ↔
        (Fuzz.tick p st b a).currentPosition ≠ st.currentPosition)) := by
  cases hsa : Fuzz.computeRollingAverage (st.midPrices ++ [(b + a) / 2])
      ((st.midPrices.length : ℤ)) p.short_window with
  | none =>
    constructor
    · intro _ _
      simp [Fuzz.tick, hsa]
    · intro _ _
      simp [Fuzz.tick, hsa]
  | some sa =>
    obtain ⟨hp, -, hf, -⟩ := Fuzz.decideOrderF_preserve p st b a sa
    obtain ⟨q, hq1, hq2, -⟩ := Fuzz.applyFill_delta
      { (Fuzz.decideOrder p st b a sa).2 with midPrices := st.midPrices ++ [(b + a) / 2] }
      (Fuzz.decideOrder p st b a sa).1 b a
    have hres1 : (Fuzz.tick p st b a).currentPosition = st.currentPosition + q := by
      simp only [Fuzz.tick, hsa]
      simpa [hp] using hq1
    have hres2 : (Fuzz.tick p st b a).totalFees =
        st.totalFees + (if 0 < q then a * (q : ℚ) * Fuzz.fees_rate
          else if q < 0 then b * ((-q : ℤ) : ℚ) * Fuzz.fees_rate else 0) := by
      simp only [Fuzz.tick, hsa]
      simpa [hf] using hq2
    constructor
    · intro hb ha
      rw [hres2]
      rcases lt_trichotomy 0 q with hq | hq | hq
      · rw [if_pos hq]
        have : (0 : ℚ) ≤ a * (q : ℚ) * Fuzz.fees_rate := by
          apply mul_nonneg (mul_nonneg ha _)
          · norm_num [Fuzz.fees_rate]
          · exact_mod_cast le_of_lt hq
        linarith
      · simp [← hq]
      · rw [if_neg (by omega), if_pos hq]
        have : (0 : ℚ) ≤ b * ((-q : ℤ) : ℚ) * Fuzz.fees_rate := by
          apply mul_nonneg (mul_nonneg hb _)
          · norm_num [Fuzz.fees_rate]
          · have : (0 : ℤ) ≤ -q := by omega
            exact_mod_cast this
        linarith
    · intro hb ha
      rw [hres2, hres1]
      rcases lt_trichotomy 0 q with hq | hq | hq
      · rw [if_pos hq]
        have : (0 : ℚ) < a * (q : ℚ) * Fuzz.fees_rate := by
          apply mul_pos (mul_pos ha _)
          · norm_num [Fuzz.fees_rate]
          · exact_mod_cast hq
        constructor
        · intro _; omega
        · intro _; linarith
      · constructor
        · intro hx
          exfalso
          simp [← hq] at hx
        · intro hx
          exfalso
          omega
      · rw [if_neg (by omega), if_pos hq]
        have : (0 : ℚ) < b * ((-q : ℤ) : ℚ) * Fuzz.fees_rate := by
          apply mul_pos (mul_pos hb _)
          · norm_num [Fuzz.fees_rate]
          · have : (0 : ℤ) < -q := by omega
            exact_mod_cast this
        constructor
        · intro _; omega
        · intro _; linarith

/-- Final-close fee behaviour of the fuzzer: with positive final prices the
fees never decrease, and strictly increase exactly when a residual
position is closed. -/
theorem Fuzz.finalClose_fees (st : Fuzz.FState) (data : List (ℚ × ℚ)) (fb fa : ℚ)
    (h : data.getLast? = some (fb, fa)) (hb : 0 < fb) (ha : 0 < fa) :
    st.totalFees ≤ (Fuzz.finalClose st data).totalFees ∧
    (st.totalFees < (Fuzz.finalClose st data).totalFees ↔ st.currentPosition ≠ 0) := by
  simp only [Fuzz.finalClose, h, Option.getD_some]
  split_ifs with h1 h2 <;> (try dsimp only)
  · have hpos : (0 : ℚ) < (st.currentPosition : ℚ) := by exact_mod_cast h1
    have : (0 : ℚ) < fb * (st.currentPosition : ℚ) * Fuzz.fees_rate := by
      apply mul_pos (mul_pos hb hpos)
      norm_num [Fuzz.fees_rate]
    constructor
    · linarith
    · constructor
      · intro _; omega
      · intro _; linarith
  · have hpos : (0 : ℚ) < ((-st.currentPosition : ℤ) : ℚ) := by
      have : (0 : ℤ) < -st.currentPosition := by omega
      exact_mod_cast this
    have : (0 : ℚ) < fa * ((-st.currentPosition : ℤ) : ℚ) * Fuzz.fees_rate := by
      apply mul_pos (mul_pos ha hpos)
      norm_num [Fuzz.fees_rate]
    constructor
    · linarith
    · constructor
      · intro _; omega
      · intro _; linarith
  · have h0 : st.currentPosition = 0 := by omega
    constructor
    · exact le_refl _
    · simp [h0]

/-- Along the fuzzer loop, with non-negative prices the accumulated fees
stay non-negative. -/
theorem Fuzz.foldl_fees_nonneg (p : Params) (data : List (ℚ × ℚ)) :
    ∀ st : Fuzz.FState, (∀ ba ∈ data, 0 ≤ ba.1 ∧ 0 ≤ ba.2) → 0 ≤ st.totalFees →
      0 ≤ (data.foldl (fun s ba => Fuzz.tick p s ba.1 ba.2) st).totalFees := by
  induction data with
  | nil => intro st _ h; simpa using h
  | cons hd tl ih =>
    intro st hprices h
    have hhd := hprices hd (List.mem_cons_self hd tl)
    have hstep := (Fuzz.tick_fees p st hd.1 hd.2).1 hhd.1 hhd.2
    exact ih _ (fun x hx => hprices x (List.mem_cons_of_mem hd hx)) (le_trans h hstep)

/-- C7 counterexample: the claim as stated — `total_fees` strictly
increases on every tick that fills a non-zero order — is false without a
price assumption.  On a tick with `bid = 0` and `ask = 13/10` (a
high-spread tick), a held long of 100 is force-closed: the non-zero order
`-100` fills and the position changes from 100 to 0, yet the fee accrued
is `bid * 100 * fees_rate = 0`, so `total_fees` does not increase. -/
theorem c7_counterexample :
    (Fuzz.tick ⟨1, 1, 0, 1⟩
        { Fuzz.initState with currentPosition := 100 } 0 (13/10)).currentPosition ≠
      ({ Fuzz.initState with currentPosition := 100 } : Fuzz.FState).currentPosition ∧
    (Fuzz.tick ⟨1, 1, 0, 1⟩
        { Fuzz.initState with currentPosition := 100 } 0 (13/10)).totalFees =
      ({ Fuzz.initState with currentPosition := 100 } : Fuzz.FState).totalFees := by
  constructor <;>
    norm_num [Fuzz.tick, Fuzz.computeRollingAverage, Fuzz.decideOrder, Fuzz.turnExit,
      Fuzz.hsExitDetect, Fuzz.entryCheck, Fuzz.applyFill, Fuzz.initState,
      Fuzz.fees_rate, Fuzz.position_limit, HIGH_SPREAD_THRESHOLD, POSITION_SIZE]

/-- C7 (amended: all bids and asks positive): Within a run of the fuzzer's
`runBacktest` over positive prices, `total_fees` starts at 0; it never
decreases from tick to tick and never becomes negative (non-negative
prices suffice for these two parts); and it strictly increases exactly on
the ticks that fill a non-zero order (equivalently, that change the
position — a fill moves the position by exactly the filled quantity),
including the final forced close, which adds fees exactly when a residual
position exists. -/
theorem c7_fee_monotonicity :
    Fuzz.initState.totalFees = 0 ∧
    (∀ (p : Params) (st : Fuzz.FState) (b a : ℚ), 0 ≤ b → 0 ≤ a →
      st.totalFees ≤ (Fuzz.tick p st b a).totalFees) ∧
    (∀ (p : Params) (st : Fuzz.FState) (b a : ℚ), 0 < b → 0 < a →
      (st.totalFees < (Fuzz.tick p st b a).totalFees ↔
        (Fuzz.tick p st b a).currentPosition ≠ st.currentPosition)) ∧
    (∀ (st : Fuzz.FState) (data : List (ℚ × ℚ)) (fb fa : ℚ),
      data.getLast? = some (fb, fa) → 0 < fb → 0 < fa →
      st.totalFees ≤ (Fuzz.finalClose st data).totalFees ∧
      (st.totalFees < (Fuzz.finalClose st data).totalFees ↔ st.currentPosition ≠ 0)) ∧
    (∀ (p : Params) (data : List (ℚ × ℚ)), (∀ ba ∈ data, 0 ≤ ba.1 ∧ 0 ≤ ba.2) →
      ∀ n : ℕ, 0 ≤ (Fuzz.runState p (data.take n)).totalFees) := by
  refine ⟨rfl, ?_, ?_, ?_, ?_⟩
  · intro p st b a hb ha
    exact (Fuzz.tick_fees p st b a).1 hb ha
  · intro p st b a hb ha
    exact (Fuzz.tick_fees p st b a).2 hb ha
  · intro st data fb fa h hb ha
    exact Fuzz.finalClose_fees st data fb fa h hb ha
  · intro p data hprices n
    refine Fuzz.foldl_fees_nonneg p (data.take n) Fuzz.initState ?_ (le_refl 0)
    intro x hx
    exact hprices x (List.mem_of_mem_take hx)

/-- C7 witness: a concrete positive-price tick that fills a buy of 100
strictly increases the fees and moves the position; the final close from a
held position of 5 on a one-tick series adds fees; and the fees stay
non-negative along a concrete run. -/
theorem c7_witness :
    ((0 : ℚ) ≤ 2 ∧ (0 : ℚ) < 2) ∧
    (let p : Params := ⟨1, 1, 0, 1000⟩
     let st : Fuzz.FState := { Fuzz.initState with waiting_for_signal := true,
                                                   high_spread_exit_index := -2,
                                                   midPrices := [1] }
     let cst : Fuzz.FState := { Fuzz.initState with currentPosition := 5 }
     Fuzz.initState.totalFees = 0 ∧
     Fuzz.initState.totalFees ≤ (Fuzz.tick p Fuzz.initState 2 2).totalFees ∧
     (cst.totalFees < (Fuzz.finalClose cst [(2, 3)]).totalFees ↔
       cst.currentPosition ≠ 0) ∧
     (0 : ℚ) ≤ (Fuzz.runState p ([((2 : ℚ), (2 : ℚ)), (1, 3), (2, 2), (3, 3)].take 4)).totalFees) := by
  obtain ⟨h0, h1, h2, h3, h4⟩ := c7_fee_monotonicity
  refine ⟨⟨by norm_num, by norm_num⟩, h0, ?_, ?_, ?_⟩
  · exact h1 ⟨1, 1, 0, 1000⟩ Fuzz.initState 2 2 (by norm_num) (by norm_num)
  · exact (h3 { Fuzz.initState with currentPosition := 5 } [(2, 3)] 2 3 rfl
      (by norm_num) (by norm_num)).2
  · refine h4 ⟨1, 1, 0, 1000⟩ [((2 : ℚ), (2 : ℚ)), (1, 3), (2, 2), (3, 3)] ?_ 4
    intro ba hba
    fin_cases hba <;> norm_num

end PanicTrader
